import Mathlib

/-!
A shallow embedding of the single source file `app.py` of the
starboard-ai repository: a whitespace normalizer for spaced-out
uppercase runs, three regular-expression field extractors, a PDF text
concatenator, and the HTTP handler combining them.

Strings are modelled as Lean `String` / `List Char`.  Character classes
of the Python regexes (`\s`, `\d`, `[A-Z]`, case-insensitivity) are
modelled on their ASCII ranges.  Each regex is embedded as a dedicated
matcher implementing the leftmost search and the greedy backtracking
order of Python `re` for that concrete pattern; where a greedy
quantifier can never benefit from giving characters back (because the
following literal can never match a character of the quantified class),
the matcher consumes the maximal run directly.
-/

/-- The ASCII range of the regex class `\s` (Python whitespace). -/
def isWs (c : Char) : Bool :=
  c == ' ' || c == '\t' || c == '\n' || c == '\r' || c == '\x0b' || c == '\x0c'

/-- The regex class `[A-Z]`. -/
def isUpperA (c : Char) : Bool :=
  65 ≤ c.toNat && c.toNat ≤ 90

/-- The regex class `\d` (ASCII digits). -/
def isDigitC (c : Char) : Bool :=
  48 ≤ c.toNat && c.toNat ≤ 57

/-- The regex class `[\d,]`. -/
def isDigitComma (c : Char) : Bool :=
  isDigitC c || c == ','

/-- Step 1 of remove_extra_spaces_in_uppercase: `s.replace("\n", " ")`. -/
def nlToSpace (c : Char) : Char :=
  if c == '\n' then ' ' else c

/-- Length of the leading whitespace run (greedy `\s*` / forced part of `\s+`). -/
def wsLen (l : List Char) : Nat :=
  (l.takeWhile isWs).length

/-- Matcher core for the pattern `(?:[A-Z]\s+){1,}[A-Z]` of
remove_extra_spaces_in_uppercase.  `scan true l` is the continuation
after an uppercase letter was just consumed: greedily try to extend with
another `\s+[A-Z]...` block, else end at that letter (`some 0`); it
always succeeds.  `scan false l` is the continuation inside a `\s+` run
(at least one whitespace already consumed): consume further whitespace,
then require an uppercase letter and continue with `scan true`.
Giving back whitespace can never help the Python engine here because the
following atom `[A-Z]` matches no whitespace character, so consuming the
maximal run is faithful. -/
def scan : Bool → List Char → Option Nat
  | true, [] => some 0
  | false, [] => none
  | true, c :: rest =>
    if isWs c then
      match scan false rest with
      | some n => some (n + 1)
      | none => some 0
    else some 0
  | false, c :: rest =>
    if isWs c then (scan false rest).map (· + 1)
    else if isUpperA c then (scan true rest).map (· + 1)
    else none

/-- Length of the match of `(?:[A-Z]\s+){1,}[A-Z]` at the start of `l`
(Python `re` semantics), or `none`. -/
def matchRun : List Char → Option Nat
  | c :: d :: rest =>
    if isUpperA c && isWs d then (scan false rest).map (· + 2) else none
  | _ => none

/-- One `pattern.sub` scanning pass of remove_extra_spaces_in_uppercase,
fuelled for structural recursion: at each position, if the uppercase-run
pattern matches, emit the match with its spaces removed (the replacement
function is `match.group(0).replace(" ", "")`, which deletes only the
space character U+0020) and resume after the match; otherwise emit the
character unchanged.  With fuel at least the length of the list the fuel
never runs out. -/
def subFuel : Nat → List Char → List Char
  | 0, l => l
  | _ + 1, [] => []
  | fuel + 1, c :: rest =>
    match matchRun (c :: rest) with
    | some n =>
      ((c :: rest).take n).filter (· != ' ') ++ subFuel fuel ((c :: rest).drop n)
    | none => c :: subFuel fuel rest

/-- The substitution pass with sufficient fuel. -/
def subAux (l : List Char) : List Char :=
  subFuel l.length l

/-- The text reaching parse_key_data after its first step: newlines
replaced by spaces, then the uppercase-run substitution. -/
def cleanedOf (s : String) : List Char :=
  subAux (s.data.map nlToSpace)

/-- remove_extra_spaces_in_uppercase from app.py: replace newlines by
spaces, then collapse spaced-out uppercase-letter runs. -/
def remove_extra_spaces_in_uppercase (s : String) : String :=
  String.mk (cleanedOf s)

/-- Case-insensitive literal matcher (the pattern is given in upper
case): consumes `pat.length` characters whose ASCII uppercasing equals
`pat` and returns the rest of the input. -/
def ciLit : List Char → List Char → Option (List Char)
  | [], l => some l
  | _ :: _, [] => none
  | p :: ps, c :: cs => if c.toUpper = p then ciLit ps cs else none

/-- Match of `(280\s+RICHARDS)` (IGNORECASE) at the start of `l`,
returning the matched substring (= group 1).  `\s+` is forced-maximal
because `R` matches no whitespace character. -/
def propAt (l : List Char) : Option (List Char) :=
  match ciLit "280".data l with
  | none => none
  | some r1 =>
    let k := wsLen r1
    if k = 0 then none
    else
      match ciLit "RICHARDS".data (r1.drop k) with
      | none => none
      | some _ => some (l.take (3 + k + 8))

/-- The greedy `[,]?`: consume a leading comma when present. -/
def commaDrop : List Char → List Char
  | ',' :: t => t
  | l => l

/-- The greedy `\s*`: consume the leading whitespace run. -/
def wsDrop (l : List Char) : List Char :=
  l.drop (wsLen l)

/-- Match of `(BROOKLYN)[,]?\s*(NEWYOR(?:CITY)?)` (IGNORECASE) at the
start of `l`, returning (group 1, group 2).  `[,]?` and `\s*` are
deterministic here: declining an available comma or whitespace leaves a
character that `N` cannot match, and `(?:CITY)?` is greedy. -/
def addrAt (l : List Char) : Option (List Char × List Char) :=
  match ciLit "BROOKLYN".data l with
  | none => none
  | some r1 =>
    match ciLit "NEWYOR".data (wsDrop (commaDrop r1)) with
    | none => none
    | some r4 =>
      match ciLit "CITY".data r4 with
      | some _ => some (l.take 8, (wsDrop (commaDrop r1)).take 10)
      | none => some (l.take 8, (wsDrop (commaDrop r1)).take 6)

/-- Match of `([\d,]+)\s*(?:square\s*feet|sf)` (IGNORECASE) at the start
of `l`, returning group 1.  `[\d,]+` and the `\s*`s are forced-maximal
(`s` and `f` match neither digits, commas nor whitespace); the
alternation tries `square\s*feet` first, then `sf`. -/
def sqftAt (l : List Char) : Option (List Char) :=
  let d := l.takeWhile isDigitComma
  if d.length = 0 then none
  else
    let r1 := l.drop d.length
    let r2 := r1.drop (wsLen r1)
    match ciLit "SQUARE".data r2 with
    | some r3 =>
      match ciLit "FEET".data (r3.drop (wsLen r3)) with
      | some _ => some d
      | none =>
        match ciLit "SF".data r2 with
        | some _ => some d
        | none => none
    | none =>
      match ciLit "SF".data r2 with
      | some _ => some d
      | none => none

/-- Match of `(\d+)\s*K` (IGNORECASE) at the start of `l`, returning
group 1. -/
def kAt (l : List Char) : Option (List Char) :=
  let d := l.takeWhile isDigitC
  if d.length = 0 then none
  else
    let r1 := l.drop d.length
    match r1.drop (wsLen r1) with
    | c :: _ => if c.toUpper = 'K' then some d else none
    | [] => none

/-- `re.search`: try the pattern matcher at each position from the left;
first success wins. -/
def searchFirst {α : Type} (f : List Char → Option α) : List Char → Option α
  | [] => f []
  | c :: rest =>
    match f (c :: rest) with
    | some a => some a
    | none => searchFirst f rest

/-- ASCII letters (the characters Python `str.title` treats as cased,
restricted to ASCII). -/
def isAlphaA (c : Char) : Bool :=
  isUpperA c || (97 ≤ c.toNat && c.toNat ≤ 122)

/-- Worker for `str.title`: the Boolean records whether the previous
character was a letter. -/
def pyTitleGo : Bool → List Char → List Char
  | _, [] => []
  | prevAlpha, c :: rest =>
    if isAlphaA c then
      (if prevAlpha then c.toLower else c.toUpper) :: pyTitleGo true rest
    else c :: pyTitleGo false rest

/-- Python `str.title()`: the first letter of each letter run is
uppercased, subsequent letters lowercased, other characters unchanged. -/
def pyTitle (l : List Char) : List Char :=
  pyTitleGo false l

/-- Python `str.strip()`: remove leading and trailing whitespace. -/
def pyStrip (l : List Char) : List Char :=
  ((l.dropWhile isWs).reverse.dropWhile isWs).reverse

/-- Python `int()` on the strings produced by the square-footage paths
(digit strings, possibly empty after commas are removed): a non-empty
all-digit string parses to its value, anything else (here: only the
empty string is reachable) raises, modelled as `none`. -/
def pyIntDigits (l : List Char) : Option Nat :=
  if l.isEmpty then none
  else if l.all isDigitC then
    some (l.foldl (fun a c => 10 * a + (c.toNat - 48)) 0)
  else none

/-- The property-name extraction of parse_key_data: search for
`280\s+RICHARDS`, then `.strip().title()` the match. -/
def propertyNameOf (cleaned : List Char) : Option String :=
  match searchFirst propAt cleaned with
  | some m => some (String.mk (pyTitle (pyStrip m)))
  | none => none

/-- The variant table of parse_key_data applied to the uppercased
group 2 (`ny_variant` in the code): the two enumerated spellings map to
the full city names, anything else falls back to its title-cased form. -/
def nyOf (ny_variant : List Char) : List Char :=
  if ny_variant = "NEWYORCITY".data then "New York City".data
  else if ny_variant = "NEWYOR".data then "New York".data
  else pyTitle ny_variant

/-- The address extraction of parse_key_data: search for
`(BROOKLYN)[,]?\s*(NEWYOR(?:CITY)?)`, title-case group 1 (`borough`),
map the uppercased group 2 through the variant table, and join with a
comma as in the format string of the code. -/
def addressOf (cleaned : List Char) : Option String :=
  match searchFirst addrAt cleaned with
  | none => none
  | some (g1, g2) =>
    some (String.mk (pyTitle g1 ++ ", ".data ++ nyOf (g2.map Char.toUpper)))

/-- The square-footage extraction of parse_key_data: first the
`square feet / sf` pattern (commas stripped from group 1, parsed as an
integer, parse failure giving `None`); only if that pattern matched
nowhere, the `(\d+)\s*K` pattern times 1000. -/
def sqftOf (cleaned : List Char) : Option Nat :=
  match searchFirst sqftAt cleaned with
  | some g => pyIntDigits (g.filter (· != ','))
  | none =>
    match searchFirst kAt cleaned with
    | some g =>
      match pyIntDigits g with
      | some v => some (v * 1000)
      | none => none
    | none => none

/-- The record returned by parse_key_data. -/
structure KeyData where
  property_name : Option String
  address : Option String
  total_rentable_square_footage : Option Nat
deriving DecidableEq

/-- parse_key_data from app.py. -/
def parse_key_data (pdf_text : String) : KeyData :=
  let cleaned := cleanedOf pdf_text
  { property_name := propertyNameOf cleaned
    address := addressOf cleaned
    total_rentable_square_footage := sqftOf cleaned }

/-- extract_text_from_pdf from app.py.  The PyPDF2 reader is abstracted
as either a failure message (any exception while processing the PDF) or
the list of per-page results of `page.extract_text()`, where `none`
models a page yielding no text object and `some t` a page yielding text
`t`; a falsy result (no text, or empty text) contributes nothing, a
truthy one contributes the text followed by a newline. -/
def extract_text_from_pdf
    (reader : Except String (List (Option String))) : Except String String :=
  match reader with
  | .error e => .error ("Error processing PDF file: " ++ e)
  | .ok pages =>
    .ok (pages.foldl
      (fun text p =>
        match p with
        | some t => if t = "" then text else text ++ t ++ "\n"
        | none => text)
      "")

/-- The JSON bodies produced by the handler. -/
inductive ApiBody where
  | err (msg : String)
  | errExtracted (msg : String) (extracted : KeyData)
  | ok (extracted : KeyData)
deriving DecidableEq

/-- parse_pdf_api from app.py.  The request is abstracted as the `file`
part: absent, or a filename together with the abstracted PDF reader
outcome.  The result is the HTTP status code and the JSON body. -/
def parse_pdf_api
    (file : Option (String × Except String (List (Option String)))) :
    Nat × ApiBody :=
  match file with
  | none => (400, .err "No file part in the request.")
  | some (fname, pdf) =>
    if fname = "" then (400, .err "No selected file.")
    else
      match extract_text_from_pdf pdf with
      | .error e => (500, .err e)
      | .ok pdf_text =>
        let key_data := parse_key_data pdf_text
        if key_data.property_name = none ∨ key_data.address = none ∨
            key_data.total_rentable_square_footage = none then
          (422, .errExtracted "Could not reliably extract all key information."
            key_data)
        else (200, .ok key_data)

/-- The Text Extractor as the claim words it, for comparison with the
code: page texts joined by a single newline separator, a page with no
extractable text contributing an empty segment.  (Stated from the spec
sentence; the code behaves differently.) -/
def extract_text_join_claim (pages : List (Option String)) : String :=
  String.intercalate "\n" (pages.map (fun p => p.getD ""))

/-- Specification tool (not itself in app.py): `reachesUpper l` holds
when `l` consists of a (possibly empty) whitespace run followed by an
uppercase letter. -/
def reachesUpper : List Char → Bool
  | [] => false
  | c :: rest => if isWs c then reachesUpper rest else isUpperA c

/-- Specification tool: `bridges l` holds when `l` starts with a
whitespace run that contains a space character (U+0020) and is followed
by an uppercase letter, i.e. when an uppercase letter placed in front of
`l` would form a collapsible spaced run whose replacement deletes a
space. -/
def bridges : List Char → Bool
  | [] => false
  | c :: rest =>
    if isWs c then (if c = ' ' then reachesUpper rest else bridges rest)
    else false

/-- Specification tool: `hasBad l` holds when somewhere in `l` an
uppercase letter is followed by a whitespace run containing a space and
then another uppercase letter.  Strings without this pattern are fixed
points of the substitution pass. -/
def hasBad : List Char → Bool
  | [] => false
  | c :: rest => (isUpperA c && bridges rest) || hasBad rest

/-! ### Equations for the substitution pass -/

lemma scan_le : ∀ (l : List Char) (b : Bool) (k : Nat), scan b l = some k → k ≤ l.length := by
  intro l
  induction l with
  | nil =>
    intro b k h
    cases b <;> simp [scan] at h
    omega
  | cons c rest ih =>
    intro b k h
    cases b with
    | true =>
      rw [scan] at h
      by_cases hw : isWs c
      · rw [if_pos hw] at h
        rcases hs : scan false rest with _ | n
        · rw [hs] at h
          simp at h
          omega
        · rw [hs] at h
          simp at h
          have := ih false n hs
          simp
          omega
      · rw [if_neg hw] at h
        simp at h
        omega
    | false =>
      rw [scan] at h
      by_cases hw : isWs c
      · rw [if_pos hw] at h
        rcases hs : scan false rest with _ | n
        · rw [hs] at h; simp at h
        · rw [hs] at h
          simp at h
          have := ih false n hs
          simp
          omega
      · rw [if_neg hw] at h
        by_cases hu : isUpperA c
        · rw [if_pos hu] at h
          rcases hs : scan true rest with _ | n
          · rw [hs] at h; simp at h
          · rw [hs] at h
            simp at h
            have := ih true n hs
            simp
            omega
        · rw [if_neg hu] at h
          simp at h

lemma matchRun_le {l : List Char} {n : Nat} (h : matchRun l = some n) : n ≤ l.length := by
  match l with
  | [] => simp [matchRun] at h
  | [c] => simp [matchRun] at h
  | c :: d :: rest =>
    rw [matchRun] at h
    by_cases hc : isUpperA c && isWs d
    · rw [if_pos hc] at h
      rcases hs : scan false rest with _ | k
      · rw [hs] at h; simp at h
      · rw [hs] at h
        simp at h
        have := scan_le rest false k hs
        simp
        omega
    · rw [if_neg hc] at h
      simp at h

lemma matchRun_pos {l : List Char} {n : Nat} (h : matchRun l = some n) : 1 ≤ n := by
  match l with
  | [] => simp [matchRun] at h
  | [c] => simp [matchRun] at h
  | c :: d :: rest =>
    rw [matchRun] at h
    by_cases hc : isUpperA c && isWs d
    · rw [if_pos hc] at h
      rcases hs : scan false rest with _ | k
      · rw [hs] at h; simp at h
      · rw [hs] at h
        simp at h
        omega
    · rw [if_neg hc] at h
      simp at h

lemma subFuel_congr : ∀ (f₁ f₂ : Nat) (l : List Char),
    l.length ≤ f₁ → l.length ≤ f₂ → subFuel f₁ l = subFuel f₂ l := by
  intro f₁
  induction f₁ with
  | zero =>
    intro f₂ l h1 _
    have : l = [] := List.eq_nil_of_length_eq_zero (Nat.le_zero.mp h1)
    subst this
    cases f₂ <;> rfl
  | succ f ih =>
    intro f₂ l h1 h2
    match l with
    | [] => cases f₂ <;> rfl
    | c :: rest =>
      match f₂, h2 with
      | g + 1, h2 =>
        rw [subFuel, subFuel]
        rcases hm : matchRun (c :: rest) with _ | n
        · simp only
          congr 1
          exact ih g rest (by simp at h1; omega) (by simp at h2; omega)
        · simp only
          congr 1
          have hpos := matchRun_pos hm
          have hle := matchRun_le hm
          exact ih g ((c :: rest).drop n)
            (by simp [List.length_drop] at *; omega)
            (by simp [List.length_drop] at *; omega)

lemma subAux_nil : subAux [] = [] := rfl

lemma subAux_match {l : List Char} {n : Nat} (h : matchRun l = some n) :
    subAux l = (l.take n).filter (· != ' ') ++ subAux (l.drop n) := by
  match l with
  | [] => simp [matchRun] at h
  | c :: rest =>
    have hpos := matchRun_pos h
    have hle := matchRun_le h
    show subFuel (c :: rest).length (c :: rest) = _
    rw [List.length_cons, subFuel, h]
    simp only
    congr 1
    exact subFuel_congr rest.length ((c :: rest).drop n).length ((c :: rest).drop n)
      (by simp [List.length_drop] at *; omega) le_rfl

lemma subAux_nomatch {c : Char} {rest : List Char} (h : matchRun (c :: rest) = none) :
    subAux (c :: rest) = c :: subAux rest := by
  show subFuel (c :: rest).length (c :: rest) = _
  rw [List.length_cons, subFuel, h]
  rfl

/-! ### The substitution pass is idempotent -/

lemma isWs_not_upper {c : Char} (h : isWs c = true) : isUpperA c = false := by
  simp only [isWs, Bool.or_eq_true, beq_iff_eq] at h
  rcases h with ((((h | h) | h) | h) | h) | h <;> subst h <;> decide

lemma isUpperA_not_ws {c : Char} (h : isUpperA c = true) : isWs c = false := by
  cases hw : isWs c
  · rfl
  · rw [isWs_not_upper hw] at h
    cases h

lemma isUpperA_ne_space {c : Char} (h : isUpperA c = true) : c ≠ ' ' := by
  intro hc
  subst hc
  simp [isUpperA] at h

lemma scan_true_some (l : List Char) : ∃ k, scan true l = some k := by
  cases l with
  | nil => exact ⟨0, rfl⟩
  | cons c rest =>
    rw [scan]
    by_cases hw : isWs c
    · rw [if_pos hw]
      rcases hs : scan false rest with _ | n
      · exact ⟨0, rfl⟩
      · exact ⟨n + 1, rfl⟩
    · rw [if_neg hw]
      exact ⟨0, rfl⟩

lemma scan_false_of_reachesUpper :
    ∀ l : List Char, reachesUpper l = true → ∃ k, scan false l = some k := by
  intro l
  induction l with
  | nil => intro h; simp [reachesUpper] at h
  | cons c rest ih =>
    intro h
    rw [reachesUpper] at h
    rw [scan]
    by_cases hw : isWs c
    · rw [if_pos hw] at h
      rw [if_pos hw]
      obtain ⟨k, hk⟩ := ih h
      exact ⟨k + 1, by rw [hk]; rfl⟩
    · rw [if_neg hw] at h
      rw [if_neg hw, if_pos h]
      obtain ⟨k, hk⟩ := scan_true_some rest
      exact ⟨k + 1, by rw [hk]; rfl⟩

lemma reachesUpper_of_scan_false :
    ∀ l : List Char, ∀ k, scan false l = some k → reachesUpper l = true := by
  intro l
  induction l with
  | nil => intro k h; simp [scan] at h
  | cons c rest ih =>
    intro k h
    rw [scan] at h
    rw [reachesUpper]
    by_cases hw : isWs c
    · rw [if_pos hw] at h
      rw [if_pos hw]
      rcases hs : scan false rest with _ | n
      · rw [hs] at h; simp at h
      · exact ih n hs
    · rw [if_neg hw] at h
      rw [if_neg hw]
      by_cases hu : isUpperA c
      · exact hu
      · rw [if_neg hu] at h
        simp at h

lemma reachesUpper_eq_false_of_scan_false_none {l : List Char}
    (h : scan false l = none) : reachesUpper l = false := by
  cases hr : reachesUpper l
  · rfl
  · obtain ⟨k, hk⟩ := scan_false_of_reachesUpper l hr
    rw [hk] at h
    cases h

lemma bridges_eq_false_of_scan_false_none :
    ∀ l : List Char, scan false l = none → bridges l = false := by
  intro l
  induction l with
  | nil => intro _; rfl
  | cons c rest ih =>
    intro h
    rw [scan] at h
    rw [bridges]
    by_cases hw : isWs c
    · rw [if_pos hw] at h
      rw [if_pos hw]
      have hrest : scan false rest = none := by
        rcases hs : scan false rest with _ | n
        · rfl
        · rw [hs] at h; simp at h
      by_cases hsp : c = ' '
      · rw [if_pos hsp]
        exact reachesUpper_eq_false_of_scan_false_none hrest
      · rw [if_neg hsp]
        exact ih hrest
    · rw [if_neg hw]

lemma bridges_drop_of_scan :
    ∀ (l : List Char) (b : Bool) (k : Nat), scan b l = some k →
      bridges (l.drop k) = false := by
  intro l
  induction l with
  | nil =>
    intro b k h
    cases b <;> simp [scan] at h
    subst h
    rfl
  | cons c rest ih =>
    intro b k h
    cases b with
    | true =>
      rw [scan] at h
      by_cases hw : isWs c
      · rw [if_pos hw] at h
        rcases hs : scan false rest with _ | n
        · rw [hs] at h
          simp at h
          subst h
          rw [List.drop_zero, bridges, if_pos hw]
          have hrest := hs
          by_cases hsp : c = ' '
          · rw [if_pos hsp]
            exact reachesUpper_eq_false_of_scan_false_none hrest
          · rw [if_neg hsp]
            exact bridges_eq_false_of_scan_false_none rest hrest
        · rw [hs] at h
          simp at h
          subst h
          rw [List.drop_succ_cons]
          exact ih false n hs
      · rw [if_neg hw] at h
        simp at h
        subst h
        rw [List.drop_zero, bridges, if_neg hw]
    | false =>
      rw [scan] at h
      by_cases hw : isWs c
      · rw [if_pos hw] at h
        rcases hs : scan false rest with _ | n
        · rw [hs] at h; simp at h
        · rw [hs] at h
          simp at h
          subst h
          rw [List.drop_succ_cons]
          exact ih false n hs
      · rw [if_neg hw] at h
        by_cases hu : isUpperA c
        · rw [if_pos hu] at h
          rcases hs : scan true rest with _ | n
          · rw [hs] at h; simp at h
          · rw [hs] at h
            simp at h
            subst h
            rw [List.drop_succ_cons]
            exact ih true n hs
        · rw [if_neg hu] at h
          simp at h

lemma bridges_drop_of_matchRun {l : List Char} {n : Nat}
    (h : matchRun l = some n) : bridges (l.drop n) = false := by
  match l with
  | [] => simp [matchRun] at h
  | [c] => simp [matchRun] at h
  | c :: d :: rest =>
    rw [matchRun] at h
    by_cases hc : isUpperA c && isWs d
    · rw [if_pos hc] at h
      rcases hs : scan false rest with _ | k
      · rw [hs] at h; simp at h
      · rw [hs] at h
        simp at h
        subst h
        rw [show k + 2 = (k + 1) + 1 by omega, List.drop_succ_cons,
          List.drop_succ_cons]
        exact bridges_drop_of_scan rest false k hs
    · rw [if_neg hc] at h
      simp at h

lemma hasBad_cons_of_tail {c : Char} {rest : List Char}
    (h : hasBad rest = true) : hasBad (c :: rest) = true := by
  rw [hasBad, h, Bool.or_true]

lemma hasBad_tail {c : Char} {rest : List Char}
    (h : hasBad (c :: rest) = false) : hasBad rest = false := by
  rw [hasBad, Bool.or_eq_false_iff] at h
  exact h.2

lemma hasBad_drop : ∀ (n : Nat) (l : List Char), hasBad l = false →
    hasBad (l.drop n) = false := by
  intro n
  induction n with
  | zero => intro l h; exact h
  | succ n ih =>
    intro l h
    cases l with
    | nil => exact h
    | cons c rest =>
      rw [List.drop_succ_cons]
      exact ih rest (hasBad_tail h)

lemma space_in_scan_take :
    ∀ (l : List Char) (b : Bool) (k : Nat), scan b l = some k →
      ' ' ∈ l.take k → (bridges l || hasBad l) = true := by
  intro l
  induction l with
  | nil =>
    intro b k _ hm
    simp at hm
  | cons c rest ih =>
    intro b k h hm
    have step :
        (isWs c = true) → ∀ n, scan false rest = some n → k = n + 1 →
          (bridges (c :: rest) || hasBad (c :: rest)) = true := by
      intro hw n hs hk
      subst hk
      rw [List.take_succ_cons] at hm
      by_cases hsp : c = ' '
      · have : bridges (c :: rest) = true := by
          rw [bridges, if_pos hw, if_pos hsp]
          exact reachesUpper_of_scan_false rest n hs
        rw [this, Bool.true_or]
      · have hm' : ' ' ∈ rest.take n := by
          rcases List.mem_cons.mp hm with h1 | h1
          · exact absurd h1.symm hsp
          · exact h1
        have := ih false n hs hm'
        rcases Bool.or_eq_true_iff.mp this with hb | hb
        · have : bridges (c :: rest) = true := by
            rw [bridges, if_pos hw, if_neg hsp]
            exact hb
          rw [this, Bool.true_or]
        · rw [hasBad_cons_of_tail hb, Bool.or_true]
    cases b with
    | true =>
      rw [scan] at h
      by_cases hw : isWs c
      · rw [if_pos hw] at h
        rcases hs : scan false rest with _ | n
        · rw [hs] at h
          simp at h
          subst h
          simp at hm
        · rw [hs] at h
          simp at h
          exact step hw n hs h.symm
      · rw [if_neg hw] at h
        simp at h
        subst h
        simp at hm
    | false =>
      rw [scan] at h
      by_cases hw : isWs c
      · rw [if_pos hw] at h
        rcases hs : scan false rest with _ | n
        · rw [hs] at h; simp at h
        · rw [hs] at h
          simp at h
          exact step hw n hs h.symm
      · rw [if_neg hw] at h
        by_cases hu : isUpperA c
        · rw [if_pos hu] at h
          rcases hs : scan true rest with _ | n
          · rw [hs] at h; simp at h
          · rw [hs] at h
            simp at h
            subst h
            rw [List.take_succ_cons] at hm
            have hm' : ' ' ∈ rest.take n := by
              rcases List.mem_cons.mp hm with h1 | h1
              · exact absurd h1.symm (isUpperA_ne_space hu)
              · exact h1
            have := ih true n hs hm'
            rcases Bool.or_eq_true_iff.mp this with hb | hb
            · have : hasBad (c :: rest) = true := by
                rw [hasBad, hu, Bool.true_and, hb, Bool.true_or]
              rw [this, Bool.or_true]
            · rw [hasBad_cons_of_tail hb, Bool.or_true]
        · rw [if_neg hu] at h
          simp at h

lemma space_in_matchRun_take {l : List Char} {n : Nat}
    (h : matchRun l = some n) (hm : ' ' ∈ l.take n) : hasBad l = true := by
  match l with
  | [] => simp [matchRun] at h
  | [c] => simp [matchRun] at h
  | c :: d :: rest =>
    rw [matchRun] at h
    by_cases hc : isUpperA c && isWs d
    · rw [if_pos hc] at h
      rcases hs : scan false rest with _ | k
      · rw [hs] at h; simp at h
      · rw [hs] at h
        simp at h
        subst h
        obtain ⟨hcu, hdw⟩ := Bool.and_eq_true_iff.mp hc
        rw [show k + 2 = (k + 1) + 1 by omega, List.take_succ_cons,
          List.take_succ_cons] at hm
        rcases List.mem_cons.mp hm with h1 | h1
        · exact absurd h1.symm (isUpperA_ne_space hcu)
        · rcases List.mem_cons.mp h1 with h2 | h2
          · rw [hasBad, hcu, Bool.true_and]
            have : bridges (d :: rest) = true := by
              rw [bridges, if_pos hdw, if_pos h2.symm]
              exact reachesUpper_of_scan_false rest k hs
            rw [this, Bool.true_or]
          · have := space_in_scan_take rest false k hs h2
            rcases Bool.or_eq_true_iff.mp this with hb | hb
            · rw [hasBad, hcu, Bool.true_and]
              have : bridges (d :: rest) = true := by
                by_cases hsp : d = ' '
                · rw [bridges, if_pos hdw, if_pos hsp]
                  exact reachesUpper_of_scan_false rest k hs
                · rw [bridges, if_pos hdw, if_neg hsp]
                  exact hb
              rw [this, Bool.true_or]
            · exact hasBad_cons_of_tail (hasBad_cons_of_tail hb)
    · rw [if_neg hc] at h
      simp at h

lemma scan_take_ends_upper :
    ∀ (l : List Char) (b : Bool) (k : Nat), scan b l = some k →
      k = 0 ∨ ∃ p u, l.take k = p ++ [u] ∧ isUpperA u = true := by
  intro l
  induction l with
  | nil =>
    intro b k h
    cases b <;> simp [scan] at h
    omega
  | cons c rest ih =>
    intro b k h
    cases b with
    | true =>
      rw [scan] at h
      by_cases hw : isWs c
      · rw [if_pos hw] at h
        rcases hs : scan false rest with _ | n
        · rw [hs] at h
          simp at h
          omega
        · rw [hs] at h
          simp at h
          subst h
          rcases ih false n hs with h0 | ⟨p, u, hp, hu⟩
          · subst h0
            rcases hs2 : scan false rest with _ | m
            · rw [hs2] at hs; cases hs
            · rw [hs2] at hs
              -- scan false never returns 0
              exfalso
              cases rest with
              | nil => simp [scan] at hs2
              | cons e t =>
                rw [scan] at hs2
                by_cases hw2 : isWs e
                · rw [if_pos hw2] at hs2
                  rcases hs3 : scan false t with _ | j
                  · rw [hs3] at hs2; simp at hs2
                  · rw [hs3] at hs2
                    simp at hs2
                    simp at hs
                    omega
                · rw [if_neg hw2] at hs2
                  by_cases hu2 : isUpperA e
                  · rw [if_pos hu2] at hs2
                    rcases hs3 : scan true t with _ | j
                    · rw [hs3] at hs2; simp at hs2
                    · rw [hs3] at hs2
                      simp at hs2
                      simp at hs
                      omega
                  · rw [if_neg hu2] at hs2
                    simp at hs2
          · right
            exact ⟨c :: p, u, by rw [List.take_succ_cons, hp, List.cons_append], hu⟩
      · rw [if_neg hw] at h
        simp at h
        omega
    | false =>
      rw [scan] at h
      by_cases hw : isWs c
      · rw [if_pos hw] at h
        rcases hs : scan false rest with _ | n
        · rw [hs] at h; simp at h
        · rw [hs] at h
          simp at h
          subst h
          rcases ih false n hs with h0 | ⟨p, u, hp, hu⟩
          · subst h0
            right
            -- n = 0 impossible for scan false, but even so handle directly
            exact absurd hs (by
              cases rest with
              | nil => simp [scan]
              | cons e t =>
                rw [scan]
                by_cases hw2 : isWs e
                · rw [if_pos hw2]
                  rcases hs3 : scan false t with _ | j
                  · simp
                  · simp
                · rw [if_neg hw2]
                  by_cases hu2 : isUpperA e
                  · rw [if_pos hu2]
                    rcases hs3 : scan true t with _ | j
                    · simp
                    · simp
                  · simp)
          · right
            exact ⟨c :: p, u, by rw [List.take_succ_cons, hp, List.cons_append], hu⟩
      · rw [if_neg hw] at h
        by_cases hu : isUpperA c
        · rw [if_pos hu] at h
          rcases hs : scan true rest with _ | n
          · rw [hs] at h; simp at h
          · rw [hs] at h
            simp at h
            subst h
            rcases ih true n hs with h0 | ⟨p, u, hp, hup⟩
            · subst h0
              right
              exact ⟨[], c, by simp, hu⟩
            · right
              exact ⟨c :: p, u, by rw [List.take_succ_cons, hp, List.cons_append], hup⟩
        · rw [if_neg hu] at h
          simp at h

lemma matchRun_shape {l : List Char} {n : Nat} (h : matchRun l = some n) :
    ∃ c d rest k, l = c :: d :: rest ∧ isUpperA c = true ∧ isWs d = true ∧
      scan false rest = some k ∧ n = k + 2 := by
  match l with
  | [] => simp [matchRun] at h
  | [c] => simp [matchRun] at h
  | c :: d :: rest =>
    rw [matchRun] at h
    by_cases hc : isUpperA c && isWs d
    · rw [if_pos hc] at h
      rcases hs : scan false rest with _ | k
      · rw [hs] at h; simp at h
      · rw [hs] at h
        simp at h
        obtain ⟨hcu, hdw⟩ := Bool.and_eq_true_iff.mp hc
        exact ⟨c, d, rest, k, rfl, hcu, hdw, hs, h.symm⟩
    · rw [if_neg hc] at h
      simp at h

lemma filter_cons_upper {c : Char} {t : List Char} (h : isUpperA c = true) :
    (c :: t).filter (· != ' ') = c :: t.filter (· != ' ') := by
  rw [List.filter_cons_of_pos]
  simp only [bne_iff_ne, ne_eq]
  exact isUpperA_ne_space h

lemma reachesUpper_subAux : ∀ l : List Char,
    reachesUpper (subAux l) = reachesUpper l := by
  suffices h : ∀ (N : Nat) (l : List Char), l.length ≤ N →
      reachesUpper (subAux l) = reachesUpper l from
    fun l => h l.length l le_rfl
  intro N
  induction N with
  | zero =>
    intro l hl
    have : l = [] := List.eq_nil_of_length_eq_zero (Nat.le_zero.mp hl)
    subst this
    rw [subAux_nil]
  | succ N ih =>
    intro l hl
    rcases hm : matchRun l with _ | n
    · cases l with
      | nil => rw [subAux_nil]
      | cons c rest =>
        rw [subAux_nomatch hm, reachesUpper, reachesUpper]
        by_cases hw : isWs c
        · rw [if_pos hw, if_pos hw]
          exact ih rest (by simp at hl; omega)
        · rw [if_neg hw, if_neg hw]
    · obtain ⟨c, d, rest, k, hsh, hcu, hdw, hs, hn⟩ := matchRun_shape hm
      subst hsh
      rw [subAux_match hm, hn, List.take_succ_cons, filter_cons_upper hcu,
        List.cons_append, reachesUpper, reachesUpper,
        if_neg (by rw [isUpperA_not_ws hcu]; exact Bool.false_ne_true),
        if_neg (by rw [isUpperA_not_ws hcu]; exact Bool.false_ne_true)]

lemma bridges_subAux : ∀ l : List Char, bridges (subAux l) = bridges l := by
  suffices h : ∀ (N : Nat) (l : List Char), l.length ≤ N →
      bridges (subAux l) = bridges l from
    fun l => h l.length l le_rfl
  intro N
  induction N with
  | zero =>
    intro l hl
    have : l = [] := List.eq_nil_of_length_eq_zero (Nat.le_zero.mp hl)
    subst this
    rw [subAux_nil]
  | succ N ih =>
    intro l hl
    rcases hm : matchRun l with _ | n
    · cases l with
      | nil => rw [subAux_nil]
      | cons c rest =>
        rw [subAux_nomatch hm, bridges, bridges]
        by_cases hw : isWs c
        · rw [if_pos hw, if_pos hw]
          by_cases hsp : c = ' '
          · rw [if_pos hsp, if_pos hsp]
            exact reachesUpper_subAux rest
          · rw [if_neg hsp, if_neg hsp]
            exact ih rest (by simp at hl; omega)
        · rw [if_neg hw, if_neg hw]
    · obtain ⟨c, d, rest, k, hsh, hcu, hdw, hs, hn⟩ := matchRun_shape hm
      subst hsh
      rw [subAux_match hm, hn, List.take_succ_cons, filter_cons_upper hcu,
        List.cons_append, bridges, bridges,
        if_neg (by rw [isUpperA_not_ws hcu]; exact Bool.false_ne_true),
        if_neg (by rw [isUpperA_not_ws hcu]; exact Bool.false_ne_true)]

lemma bridges_append_no_space {s : List Char} {u : Char} :
    ∀ b : List Char, (∀ x ∈ b, x ≠ ' ') → isWs u = false →
      bridges (b ++ u :: s) = false := by
  intro b
  induction b with
  | nil =>
    intro _ hu
    rw [List.nil_append, bridges, if_neg (by rw [hu]; exact Bool.false_ne_true)]
  | cons c b ih =>
    intro hb hu
    rw [List.cons_append, bridges]
    by_cases hw : isWs c
    · rw [if_pos hw]
      have hcs : ¬ c = ' ' := hb c (List.mem_cons_self c b)
      rw [if_neg hcs]
      exact ih (fun x hx => hb x (List.mem_cons_of_mem c hx)) hu
    · rw [if_neg hw]

lemma hasBad_append_clean {s : List Char} {u : Char} :
    ∀ b : List Char, (∀ x ∈ b, x ≠ ' ') → isUpperA u = true →
      hasBad s = false → bridges s = false → hasBad (b ++ u :: s) = false := by
  intro b
  induction b with
  | nil =>
    intro _ hu hs hbr
    rw [List.nil_append, hasBad, hbr, hs, Bool.and_false, Bool.or_false]
  | cons c b ih =>
    intro hb hu hs hbr
    rw [List.cons_append, hasBad]
    rw [ih (fun x hx => hb x (List.mem_cons_of_mem c hx)) hu hs hbr]
    rw [bridges_append_no_space b (fun x hx => hb x (List.mem_cons_of_mem c hx))
      (isUpperA_not_ws hu)]
    rw [Bool.and_false, Bool.or_false]

lemma scan_false_pos : ∀ (l : List Char) (k : Nat),
    scan false l = some k → 1 ≤ k := by
  intro l k h
  cases l with
  | nil => simp [scan] at h
  | cons c rest =>
    rw [scan] at h
    by_cases hw : isWs c
    · rw [if_pos hw] at h
      rcases hs : scan false rest with _ | n
      · rw [hs] at h; simp at h
      · rw [hs] at h; simp at h; omega
    · rw [if_neg hw] at h
      by_cases hu : isUpperA c
      · rw [if_pos hu] at h
        rcases hs : scan true rest with _ | n
        · rw [hs] at h; simp at h
        · rw [hs] at h; simp at h; omega
      · rw [if_neg hu] at h
        simp at h

lemma scan_false_of_bridges : ∀ l : List Char, bridges l = true →
    ∃ k, scan false l = some k := by
  intro l
  induction l with
  | nil => intro h; simp [bridges] at h
  | cons c rest ih =>
    intro h
    rw [bridges] at h
    by_cases hw : isWs c
    · rw [if_pos hw] at h
      rw [scan, if_pos hw]
      by_cases hsp : c = ' '
      · rw [if_pos hsp] at h
        obtain ⟨k, hk⟩ := scan_false_of_reachesUpper rest h
        exact ⟨k + 1, by rw [hk]; rfl⟩
      · rw [if_neg hsp] at h
        obtain ⟨k, hk⟩ := ih h
        exact ⟨k + 1, by rw [hk]; rfl⟩
    · rw [if_neg hw] at h
      cases h

lemma matchRun_of_bridges {c : Char} {rest : List Char}
    (hc : isUpperA c = true) (hb : bridges rest = true) :
    ∃ n, matchRun (c :: rest) = some n := by
  cases rest with
  | nil => simp [bridges] at hb
  | cons d r =>
    rw [bridges] at hb
    by_cases hw : isWs d
    · rw [if_pos hw] at hb
      have hscan : ∃ k, scan false r = some k := by
        by_cases hsp : d = ' '
        · rw [if_pos hsp] at hb
          exact scan_false_of_reachesUpper r hb
        · rw [if_neg hsp] at hb
          exact scan_false_of_bridges r hb
      obtain ⟨k, hk⟩ := hscan
      refine ⟨k + 2, ?_⟩
      rw [matchRun, if_pos (by rw [hc, hw]; rfl), hk]
      rfl
    · rw [if_neg hw] at hb
      cases hb

lemma hasBad_subAux : ∀ l : List Char, hasBad (subAux l) = false := by
  suffices h : ∀ (N : Nat) (l : List Char), l.length ≤ N →
      hasBad (subAux l) = false from fun l => h l.length l le_rfl
  intro N
  induction N with
  | zero =>
    intro l hl
    have : l = [] := List.eq_nil_of_length_eq_zero (Nat.le_zero.mp hl)
    subst this
    rw [subAux_nil]
    rfl
  | succ N ih =>
    intro l hl
    rcases hm : matchRun l with _ | n
    · cases l with
      | nil => rw [subAux_nil]; rfl
      | cons c rest =>
        rw [subAux_nomatch hm, hasBad]
        have hrest : hasBad (subAux rest) = false :=
          ih rest (by simp at hl; omega)
        rw [hrest, Bool.or_false, bridges_subAux rest]
        by_cases hc : isUpperA c
        · by_cases hb : bridges rest
          · obtain ⟨n, hn⟩ := matchRun_of_bridges hc hb
            rw [hn] at hm
            cases hm
          · rw [Bool.not_eq_true] at hb
            rw [hb, Bool.and_false]
        · rw [Bool.not_eq_true] at hc
          rw [hc, Bool.false_and]
    · obtain ⟨c, d, rest, k, hsh, hcu, hdw, hs, hn⟩ := matchRun_shape hm
      subst hsh
      have hk1 := scan_false_pos rest k hs
      rcases scan_take_ends_upper rest false k hs with h0 | ⟨p, u, hp, hu⟩
      · omega
      · have htake : (c :: d :: rest).take n = (c :: d :: p) ++ [u] := by
          rw [hn, show k + 2 = (k + 1) + 1 by omega, List.take_succ_cons,
            List.take_succ_cons, hp]
          simp
        rw [subAux_match hm, htake, List.filter_append]
        have hfu : ([u].filter (· != ' ')) = [u] := by
          rw [List.filter_cons_of_pos]
          · rfl
          · simp only [bne_iff_ne, ne_eq]
            exact isUpperA_ne_space hu
        rw [hfu, List.append_assoc, List.singleton_append]
        apply hasBad_append_clean
        · intro x hx
          have := List.of_mem_filter hx
          simpa using this
        · exact hu
        · apply ih
          have := matchRun_pos hm
          simp [List.length_drop]
          simp at hl
          omega
        · rw [bridges_subAux]
          exact bridges_drop_of_matchRun hm

lemma subAux_of_no_bad : ∀ l : List Char, hasBad l = false → subAux l = l := by
  suffices h : ∀ (N : Nat) (l : List Char), l.length ≤ N →
      hasBad l = false → subAux l = l from fun l => h l.length l le_rfl
  intro N
  induction N with
  | zero =>
    intro l hl _
    have : l = [] := List.eq_nil_of_length_eq_zero (Nat.le_zero.mp hl)
    subst this
    rw [subAux_nil]
  | succ N ih =>
    intro l hl hb
    rcases hm : matchRun l with _ | n
    · cases l with
      | nil => rw [subAux_nil]
      | cons c rest =>
        rw [subAux_nomatch hm, ih rest (by simp at hl; omega) (hasBad_tail hb)]
    · have hsp : ∀ a ∈ l.take n, (a != ' ') = true := by
        intro a ha
        simp only [bne_iff_ne, ne_eq]
        intro hc
        subst hc
        rw [space_in_matchRun_take hm ha] at hb
        cases hb
      rw [subAux_match hm, List.filter_eq_self.mpr hsp,
        ih (l.drop n) (by
          have h1 := matchRun_pos hm
          rw [List.length_drop]
          omega) (hasBad_drop n l hb),
        List.take_append_drop]

lemma subAux_idem (l : List Char) : subAux (subAux l) = subAux l :=
  subAux_of_no_bad (subAux l) (hasBad_subAux l)

lemma subAux_subset : ∀ l : List Char, ∀ c : Char, c ∈ subAux l → c ∈ l := by
  suffices h : ∀ (N : Nat) (l : List Char), l.length ≤ N →
      ∀ c : Char, c ∈ subAux l → c ∈ l from fun l => h l.length l le_rfl
  intro N
  induction N with
  | zero =>
    intro l hl c hc
    have : l = [] := List.eq_nil_of_length_eq_zero (Nat.le_zero.mp hl)
    subst this
    rw [subAux_nil] at hc
    exact hc
  | succ N ih =>
    intro l hl c hc
    rcases hm : matchRun l with _ | n
    · cases l with
      | nil => rw [subAux_nil] at hc; exact hc
      | cons a rest =>
        rw [subAux_nomatch hm] at hc
        rcases List.mem_cons.mp hc with h1 | h1
        · exact h1 ▸ List.mem_cons_self a rest
        · exact List.mem_cons_of_mem a (ih rest (by simp at hl; omega) c h1)
    · rw [subAux_match hm] at hc
      rcases List.mem_append.mp hc with h1 | h1
      · exact List.take_subset n l (List.mem_of_mem_filter h1)
      · have h2 := ih (l.drop n) (by
          have := matchRun_pos hm
          rw [List.length_drop]
          omega) c h1
        exact List.drop_subset n l h2

lemma no_nl_map_nlToSpace (l : List Char) : '\n' ∉ l.map nlToSpace := by
  intro h
  obtain ⟨x, _, hfx⟩ := List.mem_map.mp h
  by_cases hx : x == '\n'
  · rw [nlToSpace, if_pos hx] at hfx
    cases hfx
  · rw [nlToSpace, if_neg hx] at hfx
    subst hfx
    simp at hx

lemma map_nlToSpace_id : ∀ l : List Char, '\n' ∉ l → l.map nlToSpace = l := by
  intro l
  induction l with
  | nil => intro _; rfl
  | cons c rest ih =>
    intro h
    rw [List.map_cons, ih (fun hc => h (List.mem_cons_of_mem c hc))]
    congr 1
    rw [nlToSpace, if_neg]
    intro hc
    exact h (by rw [beq_iff_eq] at hc; rw [hc]; exact List.mem_cons_self _ _)

lemma cleanedOf_remove (s : String) :
    cleanedOf (remove_extra_spaces_in_uppercase s) = cleanedOf s := by
  show subAux (((String.mk (cleanedOf s)).data).map nlToSpace) = cleanedOf s
  have hdata : (String.mk (cleanedOf s)).data = cleanedOf s := rfl
  rw [hdata, map_nlToSpace_id (cleanedOf s) (fun hmem =>
    no_nl_map_nlToSpace (s.data) (subAux_subset _ _ hmem))]
  exact subAux_idem (s.data.map nlToSpace)

/-! ### Characterizing the searches and the address composition -/

lemma searchFirst_some {α : Type} {f : List Char → Option α} :
    ∀ {l : List Char} {a : α}, searchFirst f l = some a → ∃ t, f t = some a := by
  intro l
  induction l with
  | nil => intro a h; exact ⟨[], h⟩
  | cons c rest ih =>
    intro a h
    rw [searchFirst] at h
    rcases hf : f (c :: rest) with _ | b
    · rw [hf] at h
      exact ih h
    · rw [hf] at h
      cases h
      exact ⟨c :: rest, hf⟩

lemma ciLit_spec : ∀ (pat l r : List Char), ciLit pat l = some r →
    (l.take pat.length).map Char.toUpper = pat ∧ r = l.drop pat.length := by
  intro pat
  induction pat with
  | nil =>
    intro l r h
    rw [ciLit] at h
    cases h
    exact ⟨rfl, rfl⟩
  | cons p ps ih =>
    intro l r h
    cases l with
    | nil => cases h
    | cons c cs =>
      rw [ciLit] at h
      by_cases hc : c.toUpper = p
      · rw [if_pos hc] at h
        obtain ⟨h1, h2⟩ := ih cs r h
        refine ⟨?_, h2⟩
        rw [List.length_cons, List.take_succ_cons, List.map_cons, hc, h1]
      · rw [if_neg hc] at h
        cases h

lemma char_eq_of_toNat {c d : Char} (h : c.toNat = d.toNat) : c = d := by
  apply Char.ext
  apply UInt32.ext
  exact h

lemma char_toNat_ofNat {n : Nat} (h : n.isValidChar) : (Char.ofNat n).toNat = n := by
  rw [Char.ofNat, dif_pos h]
  rfl

lemma toUpper_cases {c u : Char} (h65 : 65 ≤ u.toNat) (h90 : u.toNat ≤ 90)
    (h : c.toUpper = u) : c = u ∨ c.toNat = u.toNat + 32 := by
  have hdef : c.toUpper =
      if 97 ≤ c.toNat ∧ c.toNat ≤ 122 then Char.ofNat (c.toNat - 32) else c := rfl
  rw [hdef] at h
  by_cases hc : 97 ≤ c.toNat ∧ c.toNat ≤ 122
  · rw [if_pos hc] at h
    right
    have hval : (c.toNat - 32).isValidChar := Or.inl (by omega)
    have := congrArg Char.toNat h
    rw [char_toNat_ofNat hval] at this
    omega
  · rw [if_neg hc] at h
    exact Or.inl h

lemma toLower_of_toUpper_eq {c u : Char} (h65 : 65 ≤ u.toNat) (h90 : u.toNat ≤ 90)
    (h : c.toUpper = u) : c.toLower = Char.ofNat (u.toNat + 32) := by
  have hdef : c.toLower =
      if 65 ≤ c.toNat ∧ c.toNat ≤ 90 then Char.ofNat (c.toNat + 32) else c := rfl
  rcases toUpper_cases h65 h90 h with hc | hc
  · subst hc
    rw [hdef, if_pos ⟨h65, h90⟩]
  · rw [hdef, if_neg (by omega)]
    apply char_eq_of_toNat
    rw [char_toNat_ofNat (Or.inl (by omega))]
    exact hc

lemma isAlphaA_of_toUpper_eq {c u : Char} (h65 : 65 ≤ u.toNat) (h90 : u.toNat ≤ 90)
    (h : c.toUpper = u) : isAlphaA c = true := by
  rcases toUpper_cases h65 h90 h with hc | hc
  · subst hc
    simp only [isAlphaA, isUpperA, Bool.or_eq_true, Bool.and_eq_true,
      decide_eq_true_eq]
    left
    exact ⟨h65, h90⟩
  · simp only [isAlphaA, isUpperA, Bool.or_eq_true, Bool.and_eq_true,
      decide_eq_true_eq]
    right
    omega

lemma pyTitleGo_true_of_map_toUpper :
    ∀ (l pat : List Char), l.map Char.toUpper = pat →
      (∀ u ∈ pat, 65 ≤ u.toNat ∧ u.toNat ≤ 90) →
      pyTitleGo true l = pat.map (fun u => Char.ofNat (u.toNat + 32)) := by
  intro l
  induction l with
  | nil =>
    intro pat h _
    rw [List.map_nil] at h
    subst h
    rfl
  | cons c rest ih =>
    intro pat h hb
    rw [List.map_cons] at h
    subst h
    have hbc := hb c.toUpper (List.mem_cons_self _ _)
    rw [pyTitleGo, if_pos (isAlphaA_of_toUpper_eq hbc.1 hbc.2 rfl), if_pos rfl]
    rw [List.map_cons]
    congr 1
    · exact toLower_of_toUpper_eq hbc.1 hbc.2 rfl
    · exact ih (rest.map Char.toUpper) rfl
        (fun u hu => hb u (List.mem_cons_of_mem _ hu))

lemma pyTitle_of_map_toUpper {l : List Char} {p : Char} {ps : List Char}
    (h : l.map Char.toUpper = p :: ps)
    (hb : ∀ u ∈ p :: ps, 65 ≤ u.toNat ∧ u.toNat ≤ 90) :
    pyTitle l = p :: ps.map (fun u => Char.ofNat (u.toNat + 32)) := by
  cases l with
  | nil => cases h
  | cons c rest =>
    rw [List.map_cons] at h
    injection h with h1 h2
    have hbc := hb p (List.mem_cons_self _ _)
    rw [pyTitle, pyTitleGo,
      if_pos (isAlphaA_of_toUpper_eq (h1 ▸ hbc.1) (h1 ▸ hbc.2) h1),
      if_neg Bool.false_ne_true, h1]
    congr 1
    rw [← h2]
    exact pyTitleGo_true_of_map_toUpper rest (rest.map Char.toUpper) rfl
      (fun u hu => by
        rw [h2] at hu
        exact hb u (List.mem_cons_of_mem _ hu))

lemma addrAt_groups {l g1 g2 : List Char} (h : addrAt l = some (g1, g2)) :
    g1.map Char.toUpper = "BROOKLYN".data ∧
      (g2.map Char.toUpper = "NEWYORCITY".data ∨
        g2.map Char.toUpper = "NEWYOR".data) := by
  rw [addrAt] at h
  split at h
  · cases h
  · rename_i r1 heq1
    split at h
    · cases h
    · rename_i r4 heq2
      have h1 := ciLit_spec _ _ _ heq1
      have h2 := ciLit_spec _ _ _ heq2
      rw [show ("BROOKLYN".data.length : Nat) = 8 from rfl] at h1
      rw [show ("NEWYOR".data.length : Nat) = 6 from rfl] at h2
      split at h
      · rename_i r5 heq3
        have h3 := ciLit_spec _ _ _ heq3
        rw [show ("CITY".data.length : Nat) = 4 from rfl] at h3
        cases h
        constructor
        · exact h1.1
        · left
          rw [show (10 : Nat) = 6 + 4 from rfl, List.take_add, List.map_append]
          rw [show "NEWYORCITY".data = "NEWYOR".data ++ "CITY".data from rfl]
          congr 1
          · exact h2.1
          · rw [← h2.2]
            exact h3.1
      · cases h
        exact ⟨h1.1, Or.inr h2.1⟩

lemma pyTitle_brooklyn {g1 : List Char}
    (h : g1.map Char.toUpper = "BROOKLYN".data) :
    pyTitle g1 = "Brooklyn".data := by
  have h' : g1.map Char.toUpper = 'B' :: "ROOKLYN".data := h
  rw [pyTitle_of_map_toUpper h' (by decide)]
  decide

lemma addressOf_variants {cleaned g1 g2 : List Char}
    (hsf : searchFirst addrAt cleaned = some (g1, g2)) :
    (g2.map Char.toUpper = "NEWYORCITY".data →
      addressOf cleaned = some "Brooklyn, New York City") ∧
    (g2.map Char.toUpper = "NEWYOR".data →
      addressOf cleaned = some "Brooklyn, New York") := by
  obtain ⟨t, ht⟩ := searchFirst_some hsf
  have hg := addrAt_groups ht
  have hb := pyTitle_brooklyn hg.1
  constructor
  · intro hne
    rw [addressOf, hsf]
    show some (String.mk (pyTitle g1 ++ ", ".data ++ nyOf (g2.map Char.toUpper))) = _
    rw [hne, hb]
    decide
  · intro hne
    rw [addressOf, hsf]
    show some (String.mk (pyTitle g1 ++ ", ".data ++ nyOf (g2.map Char.toUpper))) = _
    rw [hne, hb]
    decide

/-! ### Projections and handler unfolding -/

lemma parse_key_data_address (s : String) :
    (parse_key_data s).address = addressOf (cleanedOf s) := rfl

lemma parse_key_data_property (s : String) :
    (parse_key_data s).property_name = propertyNameOf (cleanedOf s) := rfl

lemma parse_key_data_sqft (s : String) :
    (parse_key_data s).total_rentable_square_footage = sqftOf (cleanedOf s) := rfl

lemma parse_key_data_fun (s : String) :
    parse_key_data s =
      (fun c => KeyData.mk (propertyNameOf c) (addressOf c) (sqftOf c))
        (cleanedOf s) := rfl

lemma parse_pdf_api_branch (fname : String)
    (pdf : Except String (List (Option String))) (txt : String)
    (hf : fname ≠ "") (hok : extract_text_from_pdf pdf = .ok txt) :
    parse_pdf_api (some (fname, pdf)) =
      if (parse_key_data txt).property_name = none ∨
          (parse_key_data txt).address = none ∨
          (parse_key_data txt).total_rentable_square_footage = none
      then (422, .errExtracted "Could not reliably extract all key information."
        (parse_key_data txt))
      else (200, .ok (parse_key_data txt)) := by
  rw [parse_pdf_api]
  show (if fname = "" then ((400 : Nat), ApiBody.err "No selected file.")
    else match extract_text_from_pdf pdf with
      | .error e => ((500 : Nat), ApiBody.err e)
      | .ok pdf_text =>
        let key_data := parse_key_data pdf_text
        if key_data.property_name = none ∨ key_data.address = none ∨
            key_data.total_rentable_square_footage = none then
          ((422 : Nat), ApiBody.errExtracted
            "Could not reliably extract all key information." key_data)
        else ((200 : Nat), ApiBody.ok key_data)) = _
  rw [if_neg hf, hok]

lemma pageFold_eq : ∀ (ps : List (Option String)) (acc : String),
    List.foldl (fun text p => match p with
      | some t => if t = "" then text else text ++ t ++ "\n"
      | none => text) acc ps =
    List.foldl (fun a t => a ++ t ++ "\n") acc
      ((ps.filterMap id).filter (· != "")) := by
  intro ps
  induction ps with
  | nil => intro _; rfl
  | cons p ps ih =>
    intro acc
    rw [List.foldl_cons]
    cases p with
    | none =>
      show List.foldl _ acc ps = _
      rw [ih]
      rfl
    | some t =>
      show List.foldl _ (if t = "" then acc else acc ++ t ++ "\n") ps = _
      by_cases ht : t = ""
      · rw [if_pos ht, ih]
        congr 1
        subst ht
        simp [List.filterMap_cons]
      · rw [if_neg ht, ih]
        have hlist : (((some t :: ps).filterMap id).filter (· != "")) =
            t :: ((ps.filterMap id).filter (· != "")) := by
          simp [List.filterMap_cons, ht]
        rw [hlist, List.foldl_cons]

/-! ### The claims -/

/-- Claim C1, counterexample: the claim asserts that every text
containing "Brooklyn, New York City" (in any letter case) yields
address = "Brooklyn, New York City"; but on the input consisting of
exactly that phrase the extractor returns no address at all, because the
pattern requires the no-space token NEWYOR(CITY) after BROOKLYN and
"New York" contains a space. -/
theorem C1_counterexample :
    (parse_key_data "Brooklyn, New York City").address = none ∧
      (none : Option String) ≠ some "Brooklyn, New York City" :=
  ⟨by decide, by decide⟩

/-- Claim C1, amended: the address resolves to "Brooklyn, New York City"
exactly on texts where the address search matches with the city-variant
group uppercasing to "NEWYORCITY" — e.g. text containing the
post-normalization collapsed form "BROOKLYN, NEWYORCITY"; the naturally
spelled phrase (with spaces inside "New York City") is not matched. -/
theorem C1_amended :
    (∀ s : String,
      (parse_key_data s).address = some "Brooklyn, New York City" ↔
        ∃ g1 g2 : List Char,
          searchFirst addrAt (cleanedOf s) = some (g1, g2) ∧
          g2.map Char.toUpper = "NEWYORCITY".data) ∧
    (parse_key_data "BROOKLYN, NEWYORCITY").address =
      some "Brooklyn, New York City" := by
  constructor
  · intro s
    constructor
    · intro h
      rw [parse_key_data_address] at h
      rcases hsf : searchFirst addrAt (cleanedOf s) with _ | ⟨g1, g2⟩
      · rw [addressOf, hsf] at h
        cases h
      · obtain ⟨t, ht⟩ := searchFirst_some hsf
        rcases (addrAt_groups ht).2 with hv | hv
        · exact ⟨g1, g2, rfl, hv⟩
        · exfalso
          rw [(addressOf_variants hsf).2 hv] at h
          have := Option.some_inj.mp h
          exact absurd this (by decide)
    · intro ⟨g1, g2, hsf, hne⟩
      rw [parse_key_data_address]
      exact (addressOf_variants hsf).1 hne
  · decide

/-- Witness for C1_amended at a concrete input. -/
theorem C1_amended_witness :
    searchFirst addrAt (cleanedOf "BROOKLYN, NEWYORCITY") =
      some ("BROOKLYN".data, "NEWYORCITY".data) ∧
    (parse_key_data "BROOKLYN, NEWYORCITY").address =
      some "Brooklyn, New York City" :=
  ⟨by decide,
    (C1_amended.1 "BROOKLYN, NEWYORCITY").mpr
      ⟨"BROOKLYN".data, "NEWYORCITY".data, by decide, by decide⟩⟩

/-- Claim C2, counterexample: the claim asserts property_name =
"280 Richards" for any text containing the digits 280, whitespace, and
RICHARDS; but the code returns the matched substring with its original
whitespace run intact, so "280   RICHARDS" (three spaces) yields
"280   Richards", not "280 Richards". -/
theorem C2_counterexample :
    (parse_key_data "280   RICHARDS").property_name = some "280   Richards" ∧
      (some "280   Richards" : Option String) ≠ some "280 Richards" :=
  ⟨by decide, by decide⟩

/-- Claim C2, amended: the property name is the matched substring
stripped and rendered in title case with its internal whitespace run
preserved — equal to "280 Richards" when the separator is a single
space — and null when the pattern matches nowhere. -/
theorem C2_amended :
    (parse_key_data "280 RICHARDS").property_name = some "280 Richards" ∧
    (∀ (s : String) (m : List Char),
      searchFirst propAt (cleanedOf s) = some m →
      (parse_key_data s).property_name =
        some (String.mk (pyTitle (pyStrip m)))) ∧
    (∀ s : String, searchFirst propAt (cleanedOf s) = none →
      (parse_key_data s).property_name = none) := by
  refine ⟨by decide, ?_, ?_⟩
  · intro s m h
    rw [parse_key_data_property, propertyNameOf, h]
  · intro s h
    rw [parse_key_data_property, propertyNameOf, h]

/-- Witness for C2_amended at a concrete input. -/
theorem C2_amended_witness :
    (parse_key_data "280   RICHARDS").property_name =
      some (String.mk (pyTitle (pyStrip "280   RICHARDS".data))) ∧
    (parse_key_data "night").property_name = none :=
  ⟨C2_amended.2.1 "280   RICHARDS" "280   RICHARDS".data (by decide),
    C2_amended.2.2 "night" (by decide)⟩

/-- Claim C3: square footage resolves to 312000 for the text
"312,000 square feet" (commas stripped, parsed as an integer), to
312000 for "312K" via the K-multiplier path, and to null when neither
pattern matches anywhere in the text. -/
theorem C3_sqft_resolution :
    (parse_key_data "312,000 square feet").total_rentable_square_footage =
      some 312000 ∧
    (parse_key_data "312K").total_rentable_square_footage = some 312000 ∧
    (∀ s : String, searchFirst sqftAt (cleanedOf s) = none →
      searchFirst kAt (cleanedOf s) = none →
      (parse_key_data s).total_rentable_square_footage = none) := by
  refine ⟨by decide, by decide, ?_⟩
  intro s h1 h2
  rw [parse_key_data_sqft, sqftOf, h1, h2]

/-- Witness for C3_sqft_resolution at a concrete input. -/
theorem C3_witness :
    (parse_key_data "no figures in this text").total_rentable_square_footage =
      none :=
  C3_sqft_resolution.2.2 "no figures in this text" (by decide) (by decide)

/-- Claim C4: on the successful-parse path (a file part with a non-empty
filename whose PDF text extraction succeeds), the handler returns 200
with the record exactly when all three fields are non-null, and returns
422 with the fixed error message and the partial record whenever at
least one field is null. -/
theorem C4_completeness_gate (fname : String)
    (pdf : Except String (List (Option String))) (txt : String)
    (hf : fname ≠ "") (hok : extract_text_from_pdf pdf = .ok txt) :
    (parse_pdf_api (some (fname, pdf)) =
        (200, ApiBody.ok (parse_key_data txt)) ↔
      (parse_key_data txt).property_name ≠ none ∧
        (parse_key_data txt).address ≠ none ∧
        (parse_key_data txt).total_rentable_square_footage ≠ none) ∧
    ((parse_key_data txt).property_name = none ∨
        (parse_key_data txt).address = none ∨
        (parse_key_data txt).total_rentable_square_footage = none →
      parse_pdf_api (some (fname, pdf)) =
        (422, ApiBody.errExtracted
          "Could not reliably extract all key information."
          (parse_key_data txt))) := by
  rw [parse_pdf_api_branch fname pdf txt hf hok]
  by_cases hnull : (parse_key_data txt).property_name = none ∨
      (parse_key_data txt).address = none ∨
      (parse_key_data txt).total_rentable_square_footage = none
  · rw [if_pos hnull]
    constructor
    · constructor
      · intro heq
        exfalso
        have := congrArg Prod.fst heq
        simp at this
      · intro ⟨ha, hb, hc⟩
        rcases hnull with h | h | h
        · exact absurd h ha
        · exact absurd h hb
        · exact absurd h hc
    · intro _
      rfl
  · rw [if_neg hnull]
    push_neg at hnull
    constructor
    · exact iff_of_true rfl hnull
    · intro h
      rcases h with h | h | h
      · exact absurd h hnull.1
      · exact absurd h hnull.2.1
      · exact absurd h hnull.2.2

/-- Witness for C4_completeness_gate at a concrete input: a one-page PDF
whose text contains all three patterns is answered with 200 and the full
record. -/
theorem C4_witness :
    parse_pdf_api (some ("doc.pdf", Except.ok
      [some "280 RICHARDS in BROOKLYN, NEWYORCITY has 312,000 square feet"])) =
      (200, ApiBody.ok (parse_key_data
        "280 RICHARDS in BROOKLYN, NEWYORCITY has 312,000 square feet\n")) :=
  (C4_completeness_gate "doc.pdf"
    (Except.ok
      [some "280 RICHARDS in BROOKLYN, NEWYORCITY has 312,000 square feet"])
    "280 RICHARDS in BROOKLYN, NEWYORCITY has 312,000 square feet\n"
    (by decide) rfl).1.mpr (by refine ⟨?_, ?_, ?_⟩ <;> decide)

/-- Claim C5: when the square-feet/sf pattern matches, the result is
determined by that match alone — it is the integer parse of the matched
digit group with commas stripped — and when that parse fails the field
is null, the K pattern never being consulted. -/
theorem C5_precedence :
    ∀ (s : String) (g : List Char),
      searchFirst sqftAt (cleanedOf s) = some g →
      (parse_key_data s).total_rentable_square_footage =
        pyIntDigits (g.filter (· != ',')) ∧
      (pyIntDigits (g.filter (· != ',')) = none →
        (parse_key_data s).total_rentable_square_footage = none) := by
  intro s g h
  rw [parse_key_data_sqft, sqftOf, h]
  exact ⟨rfl, fun h2 => h2⟩

/-- Witness for C5_precedence at a concrete input: in ", sf 312K" the
square-feet pattern matches with digit group "," whose comma-stripped
parse fails, so the field is null even though the K pattern matches
"312" elsewhere in the text. -/
theorem C5_witness :
    searchFirst sqftAt (cleanedOf ", sf 312K") = some [','] ∧
    searchFirst kAt (cleanedOf ", sf 312K") = some ['3', '1', '2'] ∧
    (parse_key_data ", sf 312K").total_rentable_square_footage = none :=
  ⟨by decide, by decide,
    (C5_precedence ", sf 312K" [','] (by decide)).2 (by decide)⟩

/-- Claim C6, counterexample: the claim asserts that within a matched
spaced-out uppercase run all whitespace is deleted; but the replacement
deletes only space characters, so the tab in "A\tB" — a matched run —
survives and the output is "A\tB", not "AB". -/
theorem C6_counterexample :
    remove_extra_spaces_in_uppercase "A\tB" = "A\tB" ∧
      ("A\tB" : String) ≠ "AB" :=
  ⟨by decide, by decide⟩

/-- Claim C6, amended: the normalizer first replaces every newline by a
space and then, within every maximal run of two-or-more uppercase
letters separated by whitespace (a match of the uppercase-run pattern),
deletes all space characters (U+0020) — other whitespace inside the run
is preserved — leaving every character outside the matched runs
unchanged. -/
theorem C6_amended :
    (∀ s : String, remove_extra_spaces_in_uppercase s =
      String.mk (subAux (s.data.map nlToSpace))) ∧
    (∀ (l : List Char) (n : Nat), matchRun l = some n →
      subAux l = (l.take n).filter (· != ' ') ++ subAux (l.drop n)) ∧
    (∀ (c : Char) (rest : List Char), matchRun (c :: rest) = none →
      subAux (c :: rest) = c :: subAux rest) :=
  ⟨fun _ => rfl, fun _ _ h => subAux_match h, fun _ _ h => subAux_nomatch h⟩

/-- Witness for C6_amended at a concrete input. -/
theorem C6_amended_witness :
    matchRun ('A' :: '\t' :: 'B' :: []) = some 3 ∧
    subAux ('A' :: '\t' :: 'B' :: []) =
      (('A' :: '\t' :: 'B' :: []).take 3).filter (· != ' ') ++
        subAux (('A' :: '\t' :: 'B' :: []).drop 3) ∧
    matchRun ('x' :: []) = none ∧
    subAux ('x' :: []) = 'x' :: subAux [] :=
  ⟨by decide, C6_amended.2.1 ('A' :: '\t' :: 'B' :: []) 3 (by decide),
    by decide, C6_amended.2.2 'x' [] (by decide)⟩

/-- Claim C7: the whitespace normalizer is idempotent — applying
remove_extra_spaces_in_uppercase to its own output yields the same
result as applying it once. -/
theorem C7_normalizer_idempotent (s : String) :
    remove_extra_spaces_in_uppercase (remove_extra_spaces_in_uppercase s) =
      remove_extra_spaces_in_uppercase s := by
  show String.mk (cleanedOf (remove_extra_spaces_in_uppercase s)) = _
  rw [cleanedOf_remove]
  rfl

/-- Claim C8, counterexample: the claim asserts that page texts are
joined by a single newline separator with textless pages contributing an
empty segment; but the code appends a newline after each non-empty page
text and skips textless pages entirely, so pages [a, no-text, empty, b]
yield "a\nb\n" rather than the claimed join "a\n\n\nb". -/
theorem C8_counterexample :
    extract_text_from_pdf (Except.ok [some "a", none, some "", some "b"]) =
      Except.ok "a\nb\n" ∧
    extract_text_join_claim [some "a", none, some "", some "b"] =
      "a\n\n\nb" ∧
    ("a\nb\n" : String) ≠ "a\n\n\nb" :=
  ⟨rfl, by decide, by decide⟩

/-- Claim C8, amended: on a successfully opened PDF, the extractor
returns the concatenation in which every page yielding non-empty text
contributes that text followed by a newline (newline-terminated, not
newline-separated), and pages yielding no text or empty text contribute
nothing. -/
theorem C8_amended (pages : List (Option String)) :
    extract_text_from_pdf (Except.ok pages) =
      Except.ok (List.foldl (fun a t => a ++ t ++ "\n") ""
        ((pages.filterMap id).filter (· != ""))) := by
  show Except.ok (List.foldl _ "" pages) = _
  rw [pageFold_eq]

/-- Claim C9: the defensive fallback branch of the address-variant
mapping is unreachable — whenever the extractor returns a non-null
address, the uppercased matched city-variant is exactly "NEWYORCITY" or
"NEWYOR", so the address is always "Brooklyn, New York City" or
"Brooklyn, New York". -/
theorem C9_fallback_unreachable (s : String) (addr : String)
    (h : (parse_key_data s).address = some addr) :
    addr = "Brooklyn, New York City" ∨ addr = "Brooklyn, New York" := by
  rw [parse_key_data_address] at h
  rcases hsf : searchFirst addrAt (cleanedOf s) with _ | ⟨g1, g2⟩
  · rw [addressOf, hsf] at h
    cases h
  · obtain ⟨t, ht⟩ := searchFirst_some hsf
    rcases (addrAt_groups ht).2 with hv | hv
    · left
      have h2 := (addressOf_variants hsf).1 hv
      rw [h2] at h
      exact (Option.some_inj.mp h).symm
    · right
      have h2 := (addressOf_variants hsf).2 hv
      rw [h2] at h
      exact (Option.some_inj.mp h).symm

/-- Witness for C9_fallback_unreachable at a concrete input. -/
theorem C9_witness :
    (parse_key_data "B R O O K L Y N,N E W Y O R").address =
      some "Brooklyn, New York" ∧
    ("Brooklyn, New York" = "Brooklyn, New York City" ∨
      "Brooklyn, New York" = "Brooklyn, New York") :=
  ⟨by decide,
    C9_fallback_unreachable "B R O O K L Y N,N E W Y O R"
      "Brooklyn, New York" (by decide)⟩

/-- Claim C10: pre-normalizing is a no-op at the extractor interface —
running parse_key_data on the normalizer output equals running it on the
raw text, because the extractor normalizes its input itself first. -/
theorem C10_prenormalize_noop (s : String) :
    parse_key_data (remove_extra_spaces_in_uppercase s) = parse_key_data s := by
  rw [parse_key_data_fun (remove_extra_spaces_in_uppercase s),
    parse_key_data_fun s, cleanedOf_remove]
